import Mathlib

set_option maxRecDepth 8000

/- Shallow embedding of the claude-hooks repository:
   src/hooks/fix_bash_command.py and src/hooks/check_file_content.py.
   Commands are lists of characters; the regex-based checks of the source
   are implemented as explicit character scanners with the same matching
   semantics.  Timestamps and the working directory recorded in audit log
   entries are omitted from the model: no statement below concerns them. -/

abbrev Chars := List Char

def toChars (s : String) : Chars := s.data

/-- Python regex class \s restricted to ASCII (all inputs of interest are
ASCII): space, tab, newline, carriage return, vertical tab, form feed. -/
def isSpaceCh (c : Char) : Bool :=
  c = ' ' || c = '\t' || c = '\n' || c = '\x0d' || c = '\x0b' || c = '\x0c'

/-- Python regex class \w restricted to ASCII: letters, digits, underscore. -/
def isWordCh (c : Char) : Bool := c.isAlpha || c.isDigit || c = '_'

/-- Python str.lstrip() (ASCII whitespace). -/
def lstripCh : Chars → Chars
  | [] => []
  | c :: r => if isSpaceCh c then lstripCh r else c :: r

/-- Python str.strip() (ASCII whitespace). -/
def stripCh (s : Chars) : Chars := ((lstripCh (lstripCh s).reverse)).reverse

/-- Case-insensitive literal match: if lowering each character of s gives pat
as a prefix, return the rest of s. pat is given in lowercase. -/
def stripCI : Chars → Chars → Option Chars
  | [], s => some s
  | _ :: _, [] => none
  | p :: ps, c :: cs => if c.toLower = p then stripCI ps cs else none

/-- Case-sensitive literal prefix match returning the rest. -/
def stripLit : Chars → Chars → Option Chars
  | [], s => some s
  | _ :: _, [] => none
  | p :: ps, c :: cs => if c = p then stripLit ps cs else none

/-- Whether pat occurs as a (case-sensitive) substring of s. -/
def containsLit (pat : Chars) : Chars → Bool
  | [] => (stripLit pat []).isSome
  | c :: r => (stripLit pat (c :: r)).isSome || containsLit pat r

/-- Whether pat (lowercase) occurs as a case-insensitive substring of s. -/
def containsCI (pat : Chars) : Chars → Bool
  | [] => (stripCI pat []).isSome
  | c :: r => (stripCI pat (c :: r)).isSome || containsCI pat r

/-- Length of the maximal leading run satisfying p, and the rest. -/
def spanCount (p : Char → Bool) : Chars → Nat × Chars
  | [] => (0, [])
  | c :: r =>
    if p c then
      let (n, rest) := spanCount p r
      (n + 1, rest)
    else (0, c :: r)

/-- Leading run satisfying p, and the rest. -/
def spanCh (p : Char → Bool) : Chars → Chars × Chars
  | [] => ([], [])
  | c :: r =>
    if p c then
      let (run, rest) := spanCh p r
      (c :: run, rest)
    else ([], c :: r)

/-- Drop at least one whitespace character, Python regex \s+ followed by a
pattern that cannot start with whitespace (so maximal munch is exact). -/
def dropSpaces1 : Chars → Option Chars
  | [] => none
  | c :: r => if isSpaceCh c then some (spanCh isSpaceCh r).2 else none

def joinComma (l : List String) : String := String.intercalate ", " l

-- ---------------------------------------------------------------------------
-- Configuration (fix_bash_command.py lines 29-90, check_file_content.py 46-53)
-- ---------------------------------------------------------------------------

/-- A loaded config.json: check id to boolean, already filtered as in
_load_config (comment keys dropped, non-boolean values dropped). -/
abbrev Config := List (String × Bool)

def lookupCfg : Config → String → Option Bool
  | [], _ => none
  | (k, v) :: r, key => if k = key then some v else lookupCfg r key

/-- Built-in defaults of fix_bash_command.py (_DEFAULTS). -/
def _DEFAULTS : Config :=
  [("nul_redirect", true), ("msys2_drive_paths", true), ("backslash_paths", true),
   ("unc_paths", true), ("wsl_paths", true), ("reserved_names", true),
   ("python3", true), ("dir_windows_flags", true), ("doubled_flags", true),
   ("dir_in_pwsh", true), ("pwsh_quoting", true), ("cmd_workaround", true),
   ("powershell_legacy", true), ("wsl_invocation", true),
   ("git_commit_attribution", false), ("git_commit_generated", false),
   ("git_commit_emoji", false)]

/-- fix_bash_command.py _is_enabled: config override, then the caller-supplied
default if given, then the built-in defaults, then true. -/
def fixbash_is_enabled (config : Config) (check_id : String) (dflt : Option Bool) : Bool :=
  match lookupCfg config check_id with
  | some b => b
  | none =>
    match dflt with
    | some b => b
    | none => (lookupCfg _DEFAULTS check_id).getD true

/-- check_file_content.py _is_enabled: config override, then the caller
default if given, then false. -/
def content_is_enabled (config : Config) (check_id : String) (dflt : Option Bool) : Bool :=
  match lookupCfg config check_id with
  | some b => b
  | none =>
    match dflt with
    | some b => b
    | none => false

-- ---------------------------------------------------------------------------
-- Content scanner (check_file_content.py lines 57-74)
-- ---------------------------------------------------------------------------

/-- BLOCKED_RANGES of check_file_content.py, in source order. -/
def BLOCKED_RANGES : List (Nat × Nat × String) :=
  [(0x1F000, 0x1FFFF, "emoji/symbols"),
   (0x2600, 0x27BF, "misc symbols/dingbats"),
   (0xFE00, 0xFE0F, "variation selectors"),
   (0x2500, 0x257F, "box drawing"),
   (0x2190, 0x21FF, "arrows"),
   (0x2700, 0x27BF, "dingbats")]

/-- First range of the table containing cp, in table order. -/
def firstRange (cp : Nat) : List (Nat × Nat × String) → Option String
  | [] => none
  | (low, high, cat) :: rest =>
    if low ≤ cp ∧ cp ≤ high then some cat else firstRange cp rest

/-- check_file_content.py find_blocked_char: first character of the text whose
code point lies in a blocked range, with the first matching range label. -/
def find_blocked_char : Chars → Option (Char × Nat × String)
  | [] => none
  | c :: rest =>
    match firstRange c.toNat BLOCKED_RANGES with
    | some cat => some (c, c.toNat, cat)
    | none => find_blocked_char rest

-- ---------------------------------------------------------------------------
-- Audit log entries and findings (fix_bash_command.py lines 109-136)
-- ---------------------------------------------------------------------------

/-- A structured audit log line (_log_entry); the timestamp and working
directory of the source are omitted (no statement concerns them). -/
structure LogEntry where
  etype : String
  fix : String
  original : String
  proposed : Option String
  fixes : Option (List String)
deriving DecidableEq

/-- log_fixup: a tier-2 "suggest" entry. -/
def mkSuggest (fix_type : String) (original : Chars) (proposed : Option String) : LogEntry :=
  ⟨"suggest", fix_type, String.mk original, proposed, none⟩

/-- log_autofix: a tier-1 "autofix" entry. -/
def mkAutofix (original fixed : Chars) (fixes : List String) : LogEntry :=
  ⟨"autofix", joinComma fixes, String.mk original, some (String.mk fixed), some fixes⟩

/-- Result of a tier-2 validator that matched: the block message printed to
stderr and the audit entry the validator writes (if any) before blocking. -/
structure Finding where
  msg : String
  log : Option LogEntry
deriving DecidableEq

-- ---------------------------------------------------------------------------
-- Tier-2 validators (fix_bash_command.py lines 204-448)
-- ---------------------------------------------------------------------------

/-- True when the following character position is a word boundary, i.e. the
rest of the string does not begin with a word character. -/
def wordBoundary : Chars → Bool
  | [] => true
  | c :: _ => !isWordCh c

/-- Attempt of regex program: literal "git", then \s+, then "commit", then \b.
Maximal-munch for \s+ is exact because "commit" begins with a non-space. -/
def gitCommitHere (s : Chars) : Bool :=
  match stripLit (toChars "git") s with
  | none => false
  | some r =>
    match dropSpaces1 r with
    | none => false
    | some r2 =>
      match stripLit (toChars "commit") r2 with
      | none => false
      | some r3 => wordBoundary r3

def gitCommitSearchGo : Bool → Chars → Bool
  | _, [] => false
  | prevW, c :: r => (!prevW && gitCommitHere (c :: r)) || gitCommitSearchGo (isWordCh c) r

/-- re.search of \bgit\s+commit\b (the leading \b is: previous character is
not a word character, since g is one). -/
def hasGitCommit (s : Chars) : Bool := gitCommitSearchGo false s

def msg_attribution : String :=
  "Commit message contains Co-Authored-By. Remove AI attribution from commit messages."

/-- check_git_commit_attribution: blocks (no audit entry) when the command
invokes git commit and contains co-authored-by case-insensitively. -/
def check_git_commit_attribution (cmd : Chars) : Option Finding :=
  if hasGitCommit cmd && containsCI (toChars "co-authored-by") cmd then
    some ⟨msg_attribution, none⟩
  else none

def msg_generated : String :=
  "Commit message contains \x27Generated with\x27. Remove AI attribution from commit messages."

/-- check_git_commit_generated: blocks (no audit entry) on "generated with". -/
def check_git_commit_generated (cmd : Chars) : Option Finding :=
  if hasGitCommit cmd && containsCI (toChars "generated with") cmd then
    some ⟨msg_generated, none⟩
  else none

/-- Membership in the character class of EMOJI_RE. -/
def isEmojiCh (c : Char) : Bool :=
  let n := c.toNat
  (0x1F600 ≤ n && n ≤ 0x1F64F) || (0x1F300 ≤ n && n ≤ 0x1F5FF) ||
  (0x1F680 ≤ n && n ≤ 0x1F6FF) || (0x1F1E0 ≤ n && n ≤ 0x1F1FF) ||
  (0x1F900 ≤ n && n ≤ 0x1F9FF) || (0x1FA00 ≤ n && n ≤ 0x1FA6F) ||
  (0x1FA70 ≤ n && n ≤ 0x1FAFF) || (0x2600 ≤ n && n ≤ 0x27BF) ||
  (0xFE00 ≤ n && n ≤ 0xFE0F)

def msg_commit_emoji : String :=
  "Commit message contains emoji. Use plain text in commit messages."

/-- check_git_commit_emoji: blocks (no audit entry) on any emoji character. -/
def check_git_commit_emoji (cmd : Chars) : Option Finding :=
  if hasGitCommit cmd && cmd.any isEmojiCh then some ⟨msg_commit_emoji, none⟩ else none

/-- Optional case-insensitive ".exe". In every pattern using it the next
required element cannot match when ".exe" is present but was skipped (the
element never matches a leading dot), so committing to it is exact. -/
def optExeCI (s : Chars) : Chars :=
  match stripCI (toChars ".exe") s with
  | some r => r
  | none => s

/-- re.match of cmd(\.exe)?\s+(//c|/c)\b against an lstripped command.
If //c matches lexically, /c cannot (second character differs), so trying
the alternatives in order and taking the boundary of each is exact. -/
def matchCmdSlashC (s : Chars) : Bool :=
  match stripCI (toChars "cmd") s with
  | none => false
  | some r =>
    match dropSpaces1 (optExeCI r) with
    | none => false
    | some r2 =>
      let alt1 := match stripCI (toChars "//c") r2 with
        | some r3 => wordBoundary r3
        | none => false
      let alt2 := match stripCI (toChars "/c") r2 with
        | some r3 => wordBoundary r3
        | none => false
      alt1 || alt2

def msg_cmd_workaround : String :=
  "Avoid cmd /c as a workaround. Run the command directly in Git Bash instead. If a Windows built-in (dir, type, etc.) is needed, consider a PowerShell or Python alternative.\nIf you specifically need a cmd.exe environment (.bat files, legacy tooling), use the full path: C:/Windows/System32/cmd.exe /c \"...\""

/-- check_cmd_workaround: blocks bare cmd /c (no audit entry). -/
def check_cmd_workaround (cmd : Chars) : Option Finding :=
  if matchCmdSlashC (lstripCh cmd) then some ⟨msg_cmd_workaround, none⟩ else none

/-- re.match of powershell(\.exe)?\s against an lstripped command. -/
def matchPowershellPre (s : Chars) : Bool :=
  match stripCI (toChars "powershell") s with
  | none => false
  | some r =>
    match optExeCI r with
    | c :: _ => isSpaceCh c
    | [] => false

def msg_powershell : String :=
  "Use pwsh (PowerShell 7+) instead of powershell.exe. powershell.exe invokes the legacy Windows PowerShell 5.1.\nIf you specifically need PowerShell 5.1 for legacy compatibility, use the full path: C:/Windows/System32/WindowsPowerShell/v1.0/powershell.exe"

/-- check_powershell_file_for_oneliner: blocks bare powershell (no audit entry). -/
def check_powershell_file_for_oneliner (cmd : Chars) : Option Finding :=
  if matchPowershellPre (lstripCh cmd) then some ⟨msg_powershell, none⟩ else none

/-- re.match of wsl(\.exe)?\s against an lstripped command. -/
def matchWslPre (s : Chars) : Bool :=
  match stripCI (toChars "wsl") s with
  | none => false
  | some r =>
    match optExeCI r with
    | c :: _ => isSpaceCh c
    | [] => false

/-- re.match of [A-Za-z]:/ . -/
def matchDriveStart : Chars → Bool
  | a :: b :: c :: _ => a.isAlpha && b = ':' && c = '/'
  | _ => false

def msg_wsl_installed : String :=
  "You are running in Git Bash on native Windows, not inside WSL.\nRun the command directly instead of prefixing it with wsl.\nIf you specifically need to run a command inside WSL, use the full path: C:/Windows/System32/wsl.exe"

def msg_wsl_not_installed : String :=
  "WSL is not installed. You are running in Git Bash on native Windows.\nRun the command directly instead of prefixing it with wsl."

/-- check_wsl_invocation: blocks a bare wsl invocation (no audit entry);
the message depends on whether wsl.exe is detected on disk. -/
def check_wsl_invocation (wslInstalled : Bool) (cmd : Chars) : Option Finding :=
  let stripped := lstripCh cmd
  if !matchWslPre stripped then none
  else if matchDriveStart stripped then none
  else if wslInstalled then some ⟨msg_wsl_installed, none⟩
  else some ⟨msg_wsl_not_installed, none⟩

/-- re.search of /mnt/([a-zA-Z])/ returning the first drive letter. -/
def findMntDrive : Chars → Option Char
  | [] => none
  | c :: r =>
    match stripLit (toChars "/mnt/") (c :: r) with
    | some (d :: '/' :: _) => if d.isAlpha then some d else findMntDrive r
    | _ => findMntDrive r

/-- re.sub of /mnt/([a-zA-Z])/ with the uppercase drive letter and ":/". -/
def subMnt : Nat → Chars → Chars
  | 0, s => s
  | _ + 1, [] => []
  | f + 1, c :: r =>
    match stripLit (toChars "/mnt/") (c :: r) with
    | some (d :: '/' :: rest) =>
      if d.isAlpha then d.toUpper :: ':' :: '/' :: subMnt f rest
      else c :: subMnt f r
    | _ => c :: subMnt f r

/-- check_wsl_paths: logs a suggest entry and blocks on /mnt/x/ paths when
not running inside WSL. -/
def check_wsl_paths (inWsl : Bool) (cmd : Chars) : Option Finding :=
  if inWsl then none
  else
    match findMntDrive cmd with
    | none => none
    | some g =>
      let proposed := String.mk (subMnt (cmd.length + 1) cmd)
      some ⟨"/mnt/" ++ String.mk [g] ++ "/ is a WSL mount path. You are in Git Bash on native Windows.\nOriginal:  " ++ String.mk cmd ++ "\nSuggested: " ++ proposed,
            some (mkSuggest "wsl_path" cmd (some proposed))⟩

/-- Attempt of pwsh(?:\.exe)?\s+(?:-Command|-c)\b at one position. When
"-Command" matches lexically but its boundary fails, "-c" also fails (the
character after "-c" is then the word character o), so an or of the two
alternatives is exact. -/
def pwshCmdModeHere (s : Chars) : Bool :=
  match stripCI (toChars "pwsh") s with
  | none => false
  | some r =>
    match dropSpaces1 (optExeCI r) with
    | none => false
    | some r2 =>
      let alt1 := match stripCI (toChars "-command") r2 with
        | some r3 => wordBoundary r3
        | none => false
      let alt2 := match stripCI (toChars "-c") r2 with
        | some r3 => wordBoundary r3
        | none => false
      alt1 || alt2

def pwshCmdModeGo : Bool → Chars → Bool
  | _, [] => false
  | prevW, c :: r => (!prevW && pwshCmdModeHere (c :: r)) || pwshCmdModeGo (isWordCh c) r

/-- re.search of \bpwsh(?:\.exe)?\s+(?:-Command|-c)\b . -/
def hasPwshCmdMode (s : Chars) : Bool := pwshCmdModeGo false s

/-- Attempt of dir\s+(/[a-zA-Z]) at one position, returning the flag letter. -/
def dirSlashFlagHere (s : Chars) : Option Char :=
  match stripCI (toChars "dir") s with
  | none => none
  | some r =>
    match dropSpaces1 r with
    | none => none
    | some ('/' :: c :: _) => if c.isAlpha then some c else none
    | some _ => none

def dirSlashFlagGo : Bool → Chars → Option Char
  | _, [] => none
  | prevW, c :: r =>
    match (if !prevW then dirSlashFlagHere (c :: r) else none) with
    | some f => some f
    | none => dirSlashFlagGo (isWordCh c) r

/-- The per-flag replacement table of check_dir_in_pwsh. -/
def pwshSuggestion (flag : String) : String :=
  if flag = "/b" then "Get-ChildItem path | Select-Object -ExpandProperty Name"
  else if flag = "/s" then "Get-ChildItem path -Recurse"
  else if flag = "/a" then "Get-ChildItem path -Force"
  else "Get-ChildItem path"

/-- check_dir_in_pwsh: logs a suggest entry (with no proposed command) and
blocks cmd.exe-style dir flags inside pwsh -Command. -/
def check_dir_in_pwsh (cmd : Chars) : Option Finding :=
  if !hasPwshCmdMode cmd then none
  else
    match dirSlashFlagGo false cmd with
    | none => none
    | some c =>
      let flag := "/" ++ String.mk [c.toLower]
      some ⟨"\x27dir " ++ flag ++ "\x27 is a cmd.exe flag; PowerShell\x27s dir (Get-ChildItem) does not accept it and will treat it as a path.\nUse: " ++ pwshSuggestion flag,
            some (mkSuggest "dir_in_pwsh" cmd none)⟩

-- ---------------------------------------------------------------------------
-- Reserved device names (fix_bash_command.py lines 150-163, 350-382)
-- ---------------------------------------------------------------------------

def WINDOWS_RESERVED_NAMES : List String :=
  ["con", "prn", "aux", "nul",
   "com1", "com2", "com3", "com4", "com5", "com6", "com7", "com8", "com9",
   "lpt1", "lpt2", "lpt3", "lpt4", "lpt5", "lpt6", "lpt7", "lpt8", "lpt9"]

/-- Alternation over the reserved names (case-insensitive), returning the
matched characters in original case and the rest. No reserved name is a
prefix of another, so at most one alternative matches and the iteration
order of the Python set is immaterial. -/
def matchNameFrom : List String → Chars → Option (Chars × Chars)
  | [], _ => none
  | n :: rest, s =>
    match stripCI (toChars n) s with
    | some r => some (s.take (toChars n).length, r)
    | none => matchNameFrom rest s

def matchReservedName (s : Chars) : Option (Chars × Chars) :=
  matchNameFrom WINDOWS_RESERVED_NAMES s

/-- Optional greedy extension (?:\.[\w.]+)? . Backtracking into a shorter
run cannot help the following \s*$ because run characters are word
characters or dots, so committing to the maximal run is exact. -/
def dropExt (s : Chars) : Chars :=
  match s with
  | '.' :: r =>
    let (n, rest) := spanCount (fun c => isWordCh c || c = '.') r
    if n = 0 then s else rest
  | _ => s

/-- \s*$ under re.MULTILINE: only whitespace up to a newline or the end. -/
def lineBlank : Chars → Bool
  | [] => true
  | c :: r => if c = '\n' then true else if isSpaceCh c then lineBlank r else false

/-- The redirect operator ((?:&|[012])?>): prefixed form is preferred; if the
prefix is present but not followed by >, the bare form applies only when the
first character is itself >. -/
def matchRedirOp : Chars → Option (Chars × Chars)
  | [] => none
  | [c] => if c = '>' then some (['>'], []) else none
  | a :: b :: r =>
    if (a = '&' || a = '0' || a = '1' || a = '2') && b = '>' then some ([a, '>'], r)
    else if a = '>' then some (['>'], b :: r)
    else none

/-- Negative lookbehind (?<!/dev/) with re.IGNORECASE; rev holds the
characters before the current position, last first. -/
def precededByDev (rev : Chars) : Bool :=
  match rev with
  | a :: b :: c :: d :: e :: _ =>
    a.toLower = '/' && b.toLower = 'v' && c.toLower = 'e' && d.toLower = 'd' && e.toLower = '/'
  | _ => false

/-- _RESERVED_RE without its trailing \s*$ anchor: redirect operator, \s*,
reserved name, optional extension. Returns the name (original case) and the
rest of the string after the (maximal) extension. -/
def looseReservedAt (rev s : Chars) : Option (Chars × Chars) :=
  if precededByDev rev then none
  else
    match matchRedirOp s with
    | none => none
    | some (_, r) =>
      let r2 := (spanCh isSpaceCh r).2
      match matchReservedName r2 with
      | none => none
      | some (name, r3) => some (name, dropExt r3)

/-- re.search of the full _RESERVED_RE (leftmost match), returning the
matched reserved name in original case. -/
def reservedRedirGo : Nat → Chars → Chars → Option Chars
  | 0, _, _ => none
  | _ + 1, _, [] => none
  | f + 1, rev, c :: r =>
    match looseReservedAt rev (c :: r) with
    | some (name, rest) =>
      if lineBlank rest then some name else reservedRedirGo f (c :: rev) r
    | none => reservedRedirGo f (c :: rev) r

def reservedRedirFind (cmd : Chars) : Option Chars :=
  reservedRedirGo (cmd.length + 1) [] cmd

/-- The file-command alternation (?:touch|mkdir|cp|mv|cat\s*>|tee); the
alternatives are mutually exclusive at any one position. -/
def fileCmdHere (s : Chars) : Option Chars :=
  match stripLit (toChars "touch") s with
  | some r => some r
  | none =>
  match stripLit (toChars "mkdir") s with
  | some r => some r
  | none =>
  match stripLit (toChars "cp") s with
  | some r => some r
  | none =>
  match stripLit (toChars "mv") s with
  | some r => some r
  | none =>
  match stripLit (toChars "cat") s with
  | some r =>
    match (spanCh isSpaceCh r).2 with
    | '>' :: r2 => some r2
    | _ => none
  | none => stripLit (toChars "tee") s

/-- Attempt of \b(?:touch|mkdir|cp|mv|cat\s*>|tee)\s+(\S+) at one position,
returning the captured token. -/
def fileCmdMatchHere (s : Chars) : Option Chars :=
  match fileCmdHere s with
  | none => none
  | some r =>
    match dropSpaces1 r with
    | none => none
    | some r2 =>
      let (fn, _) := spanCh (fun c => !isSpaceCh c) r2
      if fn = [] then none else some fn

def fileCmdSearch : Bool → Chars → Option Chars
  | _, [] => none
  | prevW, c :: r =>
    match (if !prevW then fileCmdMatchHere (c :: r) else none) with
    | some fn => some fn
    | none => fileCmdSearch (isWordCh c) r

/-- Python str.strip("\"'"). -/
def stripQuotes (s : Chars) : Chars :=
  let p := fun c => c = '"' || c = '\x27'
  ((spanCh p ((spanCh p s).2.reverse)).2).reverse

/-- Python rsplit(sep, 1)[-1]: the part after the last separator. -/
def afterLast (sep : Char) (s : Chars) : Chars :=
  (s.reverse.takeWhile (fun c => c ≠ sep)).reverse

/-- The file-argument branch of check_reserved_names. -/
def fileArgBranch (cmd : Chars) : Option Finding :=
  match fileCmdSearch false cmd with
  | none => none
  | some fnRaw =>
    let filename := stripQuotes fnRaw
    let basename := afterLast '\\' (afterLast '/' filename)
    let stem := (basename.takeWhile (fun c => c ≠ '.')).map Char.toLower
    if WINDOWS_RESERVED_NAMES.any (fun n => toChars n = stem) then
      some ⟨"\x27" ++ String.mk basename ++ "\x27 uses Windows reserved name \x27" ++ String.mk stem ++ "\x27. This will create an undeletable file on Windows. Choose a different filename.",
            some (mkSuggest "reserved_name_file" cmd none)⟩
    else none

/-- check_reserved_names: the redirect branch (skipping nul, which tier 1
auto-fixes) and then the file-argument branch. -/
def check_reserved_names (cmd : Chars) : Option Finding :=
  match reservedRedirFind cmd with
  | some name =>
    if String.mk (name.map Char.toLower) ≠ "nul" then
      some ⟨"\x27" ++ String.mk name ++ "\x27 is a Windows reserved device name. Redirecting to it will either send output to a hardware device or create an undeletable file.\nUse > /dev/null to discard output.",
            some (mkSuggest "reserved_name_redirect" cmd none)⟩
    else fileArgBranch cmd
  | none => fileArgBranch cmd

-- ---------------------------------------------------------------------------
-- Doubled flags, backslash paths, UNC paths (fix_bash_command.py 231-304)
-- ---------------------------------------------------------------------------

/-- re.match of cmd(\.exe)?\s+//c\b (the legitimate MSYS2 escape). -/
def matchCmdDoubleC (s : Chars) : Bool :=
  match stripCI (toChars "cmd") s with
  | none => false
  | some r =>
    match dropSpaces1 (optExeCI r) with
    | none => false
    | some r2 =>
      match stripCI (toChars "//c") r2 with
      | some r3 => wordBoundary r3
      | none => false

/-- Attempt of (//([a-zA-Z]\x7b1,4\x7d))(?=\s|$|\") at a position where the
group may start: the greedy bounded repetition with the lookahead matches
exactly when the whole letter run has length 1 to 4 and is followed by
whitespace, the end, or a double quote. Returns the letters and the rest. -/
def doubledHere (s : Chars) : Option (Chars × Chars) :=
  match s with
  | '/' :: '/' :: r =>
    let (run, rest) := spanCh Char.isAlpha r
    if run.length = 0 || 4 < run.length then none
    else
      match rest with
      | [] => some (run, [])
      | c :: _ => if isSpaceCh c || c = '"' then some (run, rest) else none
  | _ => none

def msg_doubled (cmd proposed : String) : String :=
  "Doubled // flags break Windows commands in Git Bash. Single / works.\nOriginal:  " ++ cmd ++ "\nSuggested: " ++ proposed

def mkDoubledFinding (cmd : Chars) (proposedCh : Chars) : Finding :=
  let proposed := String.mk proposedCh
  ⟨msg_doubled (String.mk cmd) proposed, some (mkSuggest "doubled_flag" cmd (some proposed))⟩

/-- The finditer loop of check_doubled_flags: the (?:^|\s) alternative is an
anchor at the very start or one consumed whitespace character; a match whose
following character is / is skipped (scanning resumes after it), any other
match blocks with the single-slash proposal. -/
def doubledGo : Nat → Bool → Chars → Chars → Chars → Option Finding
  | 0, _, _, _, _ => none
  | _ + 1, _, _, [], _ => none
  | f + 1, atStart, pre, c :: r, cmd =>
    match (if atStart then doubledHere (c :: r) else none) with
    | some (run, rest) =>
      if (match rest with | '/' :: _ => true | _ => false) then
        doubledGo f false (run.reverse ++ ('/' :: '/' :: pre)) rest cmd
      else some (mkDoubledFinding cmd (pre.reverse ++ ('/' :: run) ++ rest))
    | none =>
      match (if isSpaceCh c then doubledHere r else none) with
      | some (run, rest) =>
        if (match rest with | '/' :: _ => true | _ => false) then
          doubledGo f false (run.reverse ++ ('/' :: '/' :: c :: pre)) rest cmd
        else some (mkDoubledFinding cmd ((c :: pre).reverse ++ ('/' :: run) ++ rest))
      | none => doubledGo f false (c :: pre) r cmd

/-- check_doubled_flags: skips URLs and the cmd //c escape, then blocks the
first doubled short flag. -/
def check_doubled_flags (cmd : Chars) : Option Finding :=
  if containsLit (toChars "http://") cmd || containsLit (toChars "https://") cmd then none
  else if matchCmdDoubleC (lstripCh cmd) then none
  else doubledGo (cmd.length + 1) true [] cmd cmd

/-- The four-character pattern ([A-Za-z]):\\([A-Za-z]) at the head of s. -/
def drivePathHere : Chars → Bool
  | a :: b :: c :: d :: _ => a.isAlpha && b = ':' && c = '\\' && d.isAlpha
  | _ => false

/-- Whether the pattern matches at offset i of cmd. -/
def drivePathAt (cmd : Chars) (i : Nat) : Bool := drivePathHere (cmd.drop i)

/-- Number of single-quote characters strictly before offset i. -/
def quoteCount (cmd : Chars) (i : Nat) : Nat :=
  ((cmd.take i).filter (fun c => c = '\x27')).length

/-- The finditer loop of check_backslash_paths: matches at odd single-quote
parity are skipped (the four matched characters contain no quote, so the
parity is unchanged across the skip); the first match at even parity is
returned as an offset. -/
def bpGo : Nat → Nat → Nat → Chars → Option Nat
  | 0, _, _, _ => none
  | _ + 1, _, _, [] => none
  | f + 1, pos, q, c :: r =>
    if drivePathHere (c :: r) then
      if q % 2 = 1 then bpGo f (pos + 4) q (r.drop 3)
      else some pos
    else bpGo f (pos + 1) (if c = '\x27' then q + 1 else q) r

def bpFind (cmd : Chars) : Option Nat := bpGo (cmd.length + 1) 0 0 cmd

/-- The class [^\s'\"] of the proposal patterns. -/
def notPathEnd (c : Char) : Bool := !(isSpaceCh c) && c ≠ '\x27' && c ≠ '"'

/-- re.sub of [A-Za-z]:\\[^\s'\"]* replacing backslashes with slashes inside
each match. -/
def bpSub : Nat → Chars → Chars
  | 0, s => s
  | _ + 1, [] => []
  | f + 1, a :: s =>
    match s with
    | b :: c2 :: rest =>
      if a.isAlpha && b = ':' && c2 = '\\' then
        let (run, rest2) := spanCh notPathEnd rest
        a :: ':' :: '/' :: (run.map (fun x => if x = '\\' then '/' else x)) ++ bpSub f rest2
      else a :: bpSub f (b :: c2 :: rest)
    | _ => a :: bpSub f s

/-- check_backslash_paths: blocks on the first drive-letter backslash path
outside single quotes, proposing the forward-slash rewrite of the whole
command. -/
def check_backslash_paths (cmd : Chars) : Option Finding :=
  match bpFind cmd with
  | none => none
  | some _ =>
    let proposed := String.mk (bpSub (cmd.length + 1) cmd)
    some ⟨"Windows backslash paths don\x27t work reliably in Git Bash.\nOriginal:  " ++ String.mk cmd ++ "\nSuggested: " ++ proposed,
          some (mkSuggest "backslash_path" cmd (some proposed))⟩

/-- The server-name class [A-Za-z0-9._-]. -/
def isServerCh (c : Char) : Bool :=
  c.isAlpha || c.isDigit || c = '.' || c = '_' || c = '-'

/-- Attempt of \\\\([A-Za-z0-9._-]+)\\([^\s'\"]*) at the head of s. The
server run is maximal (its characters cannot be the following backslash). -/
def uncHere : Chars → Option (Chars × Chars × Chars)
  | '\\' :: '\\' :: r =>
    let (server, r2) := spanCh isServerCh r
    if server = [] then none
    else
      match r2 with
      | '\\' :: r3 =>
        let (run, rest) := spanCh notPathEnd r3
        some (server, run, rest)
      | _ => none
  | _ => none

/-- The finditer loop of check_unc_paths with the single-quote parity skip
(a matched span contains no quote characters). -/
def uncGo : Nat → Nat → Chars → Bool
  | 0, _, _ => false
  | _ + 1, _, [] => false
  | f + 1, q, c :: r =>
    match uncHere (c :: r) with
    | some (_, _, rest) => if q % 2 = 1 then uncGo f q rest else true
    | none => uncGo f (if c = '\x27' then q + 1 else q) r

/-- re.sub of the UNC pattern: //server/run with backslashes in the run
replaced by slashes. -/
def uncSub : Nat → Chars → Chars
  | 0, s => s
  | _ + 1, [] => []
  | f + 1, c :: r =>
    match uncHere (c :: r) with
    | some (server, run, rest) =>
      ('/' :: '/' :: server) ++ ('/' :: run.map (fun x => if x = '\\' then '/' else x)) ++ uncSub f rest
    | none => c :: uncSub f r

/-- check_unc_paths: blocks backslash UNC paths outside single quotes. -/
def check_unc_paths (cmd : Chars) : Option Finding :=
  if uncGo (cmd.length + 1) 0 cmd then
    let proposed := String.mk (uncSub (cmd.length + 1) cmd)
    some ⟨"UNC paths with backslashes don\x27t work in Git Bash.\nOriginal:  " ++ String.mk cmd ++ "\nSuggested: " ++ proposed,
          some (mkSuggest "unc_path" cmd (some proposed))⟩
  else none

-- ---------------------------------------------------------------------------
-- Tier-1 fixers (fix_bash_command.py lines 455-565)
-- ---------------------------------------------------------------------------

/-- Attempt of (?<!/dev/)((?:&|[012])?>)\s*nul\b at one position, returning
the operator, the matched characters (original case) and the rest. -/
def nulHere (s : Chars) : Option (Chars × Chars × Chars) :=
  match matchRedirOp s with
  | none => none
  | some (op, r) =>
    let (ws, r2) := spanCh isSpaceCh r
    match stripCI (toChars "nul") r2 with
    | some r3 =>
      if wordBoundary r3 then some (op, op ++ ws ++ r2.take 3, r3) else none
    | none => none

/-- re.sub loop of fix_nul_redirect: each match becomes the operator followed
by a space and /dev/null; scanning resumes after the match on the original
text (rev tracks the original characters for the lookbehind). -/
def fixNulGo : Nat → Chars → Chars → Chars
  | 0, _, s => s
  | _ + 1, _, [] => []
  | f + 1, rev, c :: r =>
    match (if precededByDev rev then none else nulHere (c :: r)) with
    | some (op, matched, rest) =>
      op ++ toChars " /dev/null" ++ fixNulGo f (matched.reverse ++ rev) rest
    | none => c :: fixNulGo f (c :: rev) r

def fix_nul_redirect (cmd : Chars) : Chars := fixNulGo (cmd.length + 1) [] cmd

/-- re.sub loop of fix_msys2_drive_paths for (?:^|(?<=\s))/([a-zA-Z])/ ;
atOk records whether the position is the start or follows whitespace. -/
def fixMsysGo : Nat → Bool → Chars → Chars
  | 0, _, s => s
  | _ + 1, _, [] => []
  | f + 1, atOk, '/' :: d :: '/' :: rest =>
    if atOk && d.isAlpha then d.toUpper :: ':' :: '/' :: fixMsysGo f false rest
    else '/' :: fixMsysGo f false (d :: '/' :: rest)
  | f + 1, _, c :: r => c :: fixMsysGo f (isSpaceCh c) r

def fix_msys2_drive_paths (cmd : Chars) : Chars := fixMsysGo (cmd.length + 1) true cmd

/-- re.sub loop of fix_python3 for \bpython3\b . -/
def fixPy3Go : Nat → Bool → Chars → Chars
  | 0, _, s => s
  | _ + 1, _, [] => []
  | f + 1, prevW, c :: r =>
    match (if !prevW then stripLit (toChars "python3") (c :: r) else none) with
    | some rest =>
      if wordBoundary rest then toChars "python" ++ fixPy3Go f true rest
      else c :: fixPy3Go f (isWordCh c) r
    | none => c :: fixPy3Go f (isWordCh c) r

def fix_python3 (cmd : Chars) : Chars := fixPy3Go (cmd.length + 1) false cmd

/-- re.match of ^dir\b against the stripped command (case-insensitive). -/
def matchDirVerb (s : Chars) : Bool :=
  match stripCI (toChars "dir") s with
  | some r => wordBoundary r
  | none => false

/-- The flag-consuming loop of fix_dir_windows_flags:
^(/[a-zA-Z])(?::[a-zA-Z]*)?\s*(.*) applied repeatedly; flags are collected
as lowercased letters (the source stores "/x" and later uses only x). -/
def parseDirFlags : Nat → Chars → List Char × Chars
  | 0, rest => ([], rest)
  | f + 1, rest =>
    match rest with
    | '/' :: c :: r =>
      if c.isAlpha then
        let r2 := match r with
          | ':' :: rr => (spanCh Char.isAlpha rr).2
          | _ => r
        let r3 := (spanCh isSpaceCh r2).2
        let (fl, restF) := parseDirFlags f r3
        (c.toLower :: fl, restF)
      else ([], rest)
    | _ => ([], rest)

/-- _DIR_FLAG_MAP. -/
def dirFlagMap (c : Char) : Option String :=
  if c = 'b' then some "-1"
  else if c = 's' then some "-R"
  else if c = 'a' then some "-la"
  else if c = 'w' then some ""
  else if c = 'n' then some "-l"
  else if c = 'q' then some "-l"
  else none

/-- fix_dir_windows_flags: translate dir /flags [path] to ls [flags] [path];
returns the input unchanged when there is no flag or any flag is unknown. -/
def fix_dir_windows_flags (cmd : Chars) : Chars :=
  let stripped := stripCh cmd
  if !matchDirVerb stripped then cmd
  else
    let rest0 := stripCh (stripped.drop 3)
    let (flags, rest) := parseDirFlags (rest0.length + 1) rest0
    if flags = [] then cmd
    else if flags.any (fun c => (dirFlagMap c).isNone) then cmd
    else
      let ls_flags := flags.foldl (fun acc c =>
        match dirFlagMap c with
        | some m => if m ≠ "" && !acc.contains m then acc ++ [m] else acc
        | none => acc) []
      let path_part := stripCh rest
      let ls1 := "ls" ++ (if ls_flags ≠ [] then " " ++ String.intercalate " " ls_flags else "")
      let ls2 := ls1 ++ (if path_part ≠ [] then " " ++ String.mk path_part else "")
      stripCh (toChars ls2)

/-- Attempt of (pwsh(?:\.exe)?\s+(?:-Command|-c)\s+)"([^"]*)" at one
position: returns (group 1, the quoted content, the rest after the closing
quote). When "-Command" matches lexically but the following \s+ fails, "-c"
fails as well (the next character is then the letter o), so trying the
alternatives in order is exact. -/
def pwshQuoteHere (s : Chars) : Option (Chars × Chars × Chars) :=
  match stripCI (toChars "pwsh") s with
  | none => none
  | some r =>
    match dropSpaces1 (optExeCI r) with
    | none => none
    | some r2 =>
      let altRest : Option Chars :=
        match stripCI (toChars "-command") r2 with
        | some r3 => some r3
        | none => stripCI (toChars "-c") r2
      match altRest with
      | none => none
      | some r3 =>
        match dropSpaces1 r3 with
        | none => none
        | some r4 =>
          match r4 with
          | '"' :: r5 =>
            let (content, r6) := spanCh (fun c => c ≠ '"') r5
            match r6 with
            | '"' :: rest => some (s.take (s.length - r4.length), content, rest)
            | _ => none
          | _ => none

def pwshQuoteSearch : Nat → Chars → Chars → Option (Chars × Chars × Chars × Chars)
  | 0, _, _ => none
  | _ + 1, _, [] => none
  | f + 1, pre, c :: r =>
    match pwshQuoteHere (c :: r) with
    | some (g1, content, rest) => some (pre.reverse, g1, content, rest)
    | none => pwshQuoteSearch f (c :: pre) r

def msg_pwsh_quoting : String :=
  "pwsh -Command with $ and embedded single quotes: bash will expand $ in double quotes and single quotes prevent nesting. Use pwsh -File script.ps1 instead."

/-- fix_pwsh_quoting: on the first double-quoted -Command block whose content
mentions $, either swap to single quotes or (when a single quote is embedded)
signal the blocking message; with no $ in that first block, do nothing. -/
def fix_pwsh_quoting (cmd : Chars) : Chars × Option String :=
  match pwshQuoteSearch (cmd.length + 1) [] cmd with
  | none => (cmd, none)
  | some (pre, g1, content, rest) =>
    if !content.contains '$' then (cmd, none)
    else if content.contains '\x27' then (cmd, some msg_pwsh_quoting)
    else (pre ++ g1 ++ '\x27' :: (content ++ '\x27' :: rest), none)

-- ---------------------------------------------------------------------------
-- Orchestrator (fix_bash_command.py lines 572-660) and audit log effects
-- ---------------------------------------------------------------------------

/-- Environment facts read by the checks: WSL_DISTRO_NAME presence and
whether C:/Windows/System32/wsl.exe exists. -/
structure Env where
  inWsl : Bool
  wslInstalled : Bool
deriving DecidableEq

/-- Filesystem behaviour of the audit log: writable covers mkdir/open/append
and the trim rewrite; trimReadOk covers the read in _trim_log_if_needed
(the only failure the source catches). -/
structure FS where
  writable : Bool
  trimReadOk : Bool
deriving DecidableEq

/-- The updatedInput payload of a rewrite response (the description field is
passed through unchanged and omitted here). -/
structure Rewrite where
  command : String
  additionalContext : String
deriving DecidableEq

/-- Result of one invocation: exit 0 with optional rewrite payload, exit 2
with a stderr message, or an uncaught OSError from the audit log (the Python
process then dies with a traceback, exit status 1). -/
inductive Outcome where
  | allow : Option Rewrite → Outcome
  | blocked : String → Outcome
  | crashed : Outcome
deriving DecidableEq

def Outcome.exitCode : Outcome → Nat
  | .allow _ => 0
  | .blocked _ => 2
  | .crashed => 1

structure RunResult where
  outcome : Outcome
  logFile : List LogEntry
deriving DecidableEq

def MAX_LOG_LINES : Nat := 500
def TRIM_TO_LINES : Nat := 250

def lastN (n : Nat) (l : List α) : List α := l.drop (l.length - n)

/-- _log_entry followed by _trim_log_if_needed: none models an OSError from
mkdir/open/write propagating (the source wraps none of them in try); a
failing read in the trim step is swallowed, leaving the file untrimmed. -/
def logWrite (fs : FS) (file : List LogEntry) (e : LogEntry) : Option (List LogEntry) :=
  if fs.writable then
    let appended := file ++ [e]
    if fs.trimReadOk && MAX_LOG_LINES < appended.length then some (lastN TRIM_TO_LINES appended)
    else some appended
  else none

/-- The tier-2 chain of main in its source order, each entry gated by its
_is_enabled call (the three git checks pass default=False). -/
def tier2Results (cfg : Config) (env : Env) (cmd : Chars) : List (Option Finding) :=
  [if fixbash_is_enabled cfg "git_commit_attribution" (some false) then check_git_commit_attribution cmd else none,
   if fixbash_is_enabled cfg "git_commit_generated" (some false) then check_git_commit_generated cmd else none,
   if fixbash_is_enabled cfg "git_commit_emoji" (some false) then check_git_commit_emoji cmd else none,
   if fixbash_is_enabled cfg "cmd_workaround" none then check_cmd_workaround cmd else none,
   if fixbash_is_enabled cfg "powershell_legacy" none then check_powershell_file_for_oneliner cmd else none,
   if fixbash_is_enabled cfg "wsl_invocation" none then check_wsl_invocation env.wslInstalled cmd else none,
   if fixbash_is_enabled cfg "wsl_paths" none then check_wsl_paths env.inWsl cmd else none,
   if fixbash_is_enabled cfg "dir_in_pwsh" none then check_dir_in_pwsh cmd else none,
   if fixbash_is_enabled cfg "reserved_names" none then check_reserved_names cmd else none,
   if fixbash_is_enabled cfg "doubled_flags" none then check_doubled_flags cmd else none,
   if fixbash_is_enabled cfg "backslash_paths" none then check_backslash_paths cmd else none,
   if fixbash_is_enabled cfg "unc_paths" none then check_unc_paths cmd else none]

def firstSome : List (Option α) → Option α
  | [] => none
  | some a :: _ => some a
  | none :: r => firstSome r

/-- The first finding of the tier-2 chain: the validator that blocks. -/
def tier2First (cfg : Config) (env : Env) (cmd : Chars) : Option Finding :=
  firstSome (tier2Results cfg env cmd)

/-- The tier-1 section of main: each fixer gated by configuration, applied to
the previous output, recording a description when its output differs; the
pwsh-quoting step may escalate to a blocking message. -/
def fixPipeline (cfg : Config) (cmd : Chars) : Except String (Chars × List String) :=
  let c1 := if fixbash_is_enabled cfg "nul_redirect" none then fix_nul_redirect cmd else cmd
  let f1 : List String := if c1 ≠ cmd then ["replaced > nul with > /dev/null"] else []
  let c2 := if fixbash_is_enabled cfg "msys2_drive_paths" none then fix_msys2_drive_paths c1 else c1
  let f2 := f1 ++ (if c2 ≠ c1 then ["converted MSYS2 drive paths to Windows style"] else [])
  let c3 := if fixbash_is_enabled cfg "python3" none then fix_python3 c2 else c2
  let f3 := f2 ++ (if c3 ≠ c2 then ["replaced python3 with python"] else [])
  let c4 := if fixbash_is_enabled cfg "dir_windows_flags" none then fix_dir_windows_flags c3 else c3
  let f4 := f3 ++ (if c4 ≠ c3 then ["converted Windows dir /flags to ls equivalent"] else [])
  if fixbash_is_enabled cfg "pwsh_quoting" none then
    match fix_pwsh_quoting c4 with
    | (_, some err) => .error err
    | (c5, none) =>
      .ok (c5, f4 ++ (if c5 ≠ c4 then ["swapped pwsh -Command quotes from double to single"] else []))
  else .ok (c4, f4)

/-- main: empty command is a silent pass; otherwise the tier-2 chain (first
finding logs its entry if it has one, then blocks), then the tier-1 pipeline
(an escalation blocks without emitting the accumulated fixes; otherwise a
changed command is logged as one autofix entry and emitted as updatedInput). -/
def runMain (cfg : Config) (env : Env) (fs : FS) (log0 : List LogEntry) (cmd : Chars) : RunResult :=
  if cmd = [] then ⟨.allow none, log0⟩
  else
    match tier2First cfg env cmd with
    | some f =>
      match f.log with
      | none => ⟨.blocked f.msg, log0⟩
      | some e =>
        match logWrite fs log0 e with
        | none => ⟨.crashed, log0⟩
        | some file => ⟨.blocked f.msg, file⟩
    | none =>
      match fixPipeline cfg cmd with
      | .error m => ⟨.blocked m, log0⟩
      | .ok (fixed, fixes) =>
        if fixes = [] then ⟨.allow none, log0⟩
        else
          match logWrite fs log0 (mkAutofix cmd fixed fixes) with
          | none => ⟨.crashed, log0⟩
          | some file =>
            ⟨.allow (some ⟨String.mk fixed, "Hook auto-fixed: " ++ joinComma fixes⟩), file⟩

-- ---------------------------------------------------------------------------
-- Derived definitions used by the statements below
-- ---------------------------------------------------------------------------

/-- A native-Windows Git Bash environment: not inside WSL, wsl.exe present. -/
def envNative : Env := ⟨false, true⟩

/-- A healthy audit-log filesystem. -/
def fsOk : FS := ⟨true, true⟩

/-- An audit log whose directory cannot be created or whose file cannot be
opened or written. -/
def fsNoWrite : FS := ⟨false, true⟩

/-- Whether the i-th validator of the tier-2 chain is enabled and matches. -/
def tier2MatchesAt (cfg : Config) (env : Env) (cmd : Chars) (i : Nat) : Bool :=
  match (tier2Results cfg env cmd)[i]? with
  | some (some _) => true
  | _ => false

/-- The flags fix_dir_windows_flags parses from a command (lowercased flag
letters). -/
def dirParsedFlags (cmd : Chars) : List Char :=
  let rest0 := stripCh ((stripCh cmd).drop 3)
  (parseDirFlags (rest0.length + 1) rest0).1

/-- The command starts with the dir verb, parses at least one flag, and some
parsed flag is outside _DIR_FLAG_MAP. -/
def dirUnknownFlag (cmd : Chars) : Bool :=
  matchDirVerb (stripCh cmd) && !(dirParsedFlags cmd).isEmpty &&
    (dirParsedFlags cmd).any (fun c => (dirFlagMap c).isNone)

/-- The anchor-free reserved-redirect pattern evaluated at offset i of cmd. -/
def looseReservedAtPos (cmd : Chars) (i : Nat) : Option (Chars × Chars) :=
  looseReservedAt ((cmd.take i).reverse) (cmd.drop i)

/-- Every anchor-free reserved-redirect occurrence in cmd is followed by
further non-whitespace text on its line (lineBlank fails after it). -/
def noEolReservedTarget (cmd : Chars) : Bool :=
  (List.range (cmd.length + 1)).all fun i =>
    match looseReservedAtPos cmd i with
    | some (_, rest) => !lineBlank rest
    | none => true

def pickOpt (a : Option Bool) (b : Option Bool) : Option Bool :=
  match a with
  | some x => some x
  | none => b

/-- Stated from the amended precedence chain for the command fixer: explicit
override, then caller-supplied fallback, then built-in default, then true. -/
def fixbash_precedence_amended (config : Config) (check_id : String) (dflt : Option Bool) : Bool :=
  (pickOpt (lookupCfg config check_id) (pickOpt dflt (lookupCfg _DEFAULTS check_id))).getD true

/-- Stated from the amended precedence chain for the content scanner: explicit
override, then caller-supplied fallback, then false. -/
def content_precedence_amended (config : Config) (check_id : String) (dflt : Option Bool) : Bool :=
  (pickOpt (lookupCfg config check_id) dflt).getD false

/-- One application of the tier-1 pipeline under default configuration;
none models the pwsh-quoting escalation. -/
def fixOnce (cmd : Chars) : Option Chars :=
  match fixPipeline [] cmd with
  | .ok (c, _) => some c
  | .error _ => none

-- ---------------------------------------------------------------------------
-- Helper lemmas
-- ---------------------------------------------------------------------------

theorem firstSome_found {α : Type} : ∀ (l : List (Option α)) (i : Nat) (a : α),
    l[i]? = some (some a) →
    ∃ k b, k ≤ i ∧ l[k]? = some (some b) ∧ (∀ m, m < k → l[m]? = some none) ∧
      firstSome l = some b := by
  intro l
  induction l with
  | nil => intro i a h; simp at h
  | cons x r ih =>
    intro i a h
    cases x with
    | some b =>
      refine ⟨0, b, Nat.zero_le _, by simp, ?_, rfl⟩
      intro m hm; omega
    | none =>
      cases i with
      | zero => simp at h
      | succ i' =>
        have h' : r[i']? = some (some a) := by simpa using h
        obtain ⟨k, b, hk, hget, hpre, hfs⟩ := ih i' a h'
        refine ⟨k + 1, b, by omega, by simpa using hget, ?_, by simpa [firstSome] using hfs⟩
        intro m hm
        cases m with
        | zero => simp
        | succ m' => simpa using hpre m' (by omega)

theorem firstSome_mem {α : Type} : ∀ (l : List (Option α)) (a : α),
    firstSome l = some a → some a ∈ l := by
  intro l
  induction l with
  | nil => intro a h; simp [firstSome] at h
  | cons x r ih =>
    intro a h
    cases x with
    | some b => simp [firstSome] at h; simp [h]
    | none => simp [firstSome] at h; simp [ih a h]

theorem check_wsl_paths_nil (w : Bool) : check_wsl_paths w [] = none := by
  cases w <;> rfl

theorem tier2First_nil (cfg : Config) (env : Env) : tier2First cfg env [] = none := by
  unfold tier2First tier2Results
  simp only [check_wsl_paths_nil,
    show check_git_commit_attribution [] = none from rfl,
    show check_git_commit_generated [] = none from rfl,
    show check_git_commit_emoji [] = none from rfl,
    show check_cmd_workaround [] = none from rfl,
    show check_powershell_file_for_oneliner [] = none from rfl,
    show check_wsl_invocation env.wslInstalled [] = none from rfl,
    show check_dir_in_pwsh [] = none from rfl,
    show check_reserved_names [] = none from rfl,
    show check_doubled_flags [] = none from rfl,
    show check_backslash_paths [] = none from rfl,
    show check_unc_paths [] = none from rfl, ite_self]
  rfl

theorem tier2First_ne_nil {cfg : Config} {env : Env} {cmd : Chars} {f : Finding}
    (h : tier2First cfg env cmd = some f) : cmd ≠ [] := by
  intro hc
  rw [hc, tier2First_nil] at h
  cases h

/-- Behaviour of main once a tier-2 validator has found a match. -/
theorem runMain_blocked (cfg : Config) (env : Env) (fs : FS) (log0 : List LogEntry)
    (cmd : Chars) (f : Finding) (h : tier2First cfg env cmd = some f) :
    runMain cfg env fs log0 cmd =
      match f.log with
      | none => ⟨.blocked f.msg, log0⟩
      | some e =>
        match logWrite fs log0 e with
        | none => ⟨.crashed, log0⟩
        | some file => ⟨.blocked f.msg, file⟩ := by
  unfold runMain
  rw [if_neg (tier2First_ne_nil h), h]

theorem doubledGo_shape : ∀ (fuel : Nat) (a : Bool) (pre s cmd : Chars) (f : Finding),
    doubledGo fuel a pre s cmd = some f → ∃ p, f = mkDoubledFinding cmd p := by
  intro fuel
  induction fuel with
  | zero => intro a pre s cmd f h; simp [doubledGo] at h
  | succ n ih =>
    intro a pre s cmd f h
    cases s with
    | nil => simp [doubledGo] at h
    | cons c r =>
      unfold doubledGo at h
      split at h
      · split at h
        · exact ih _ _ _ _ _ h
        · exact ⟨_, (Option.some.inj h).symm⟩
      · split at h
        · split at h
          · exact ih _ _ _ _ _ h
          · exact ⟨_, (Option.some.inj h).symm⟩
        · exact ih _ _ _ _ _ h

theorem check_doubled_flags_log {cmd : Chars} {f : Finding}
    (h : check_doubled_flags cmd = some f) :
    ∃ p, f.log = some (mkSuggest "doubled_flag" cmd (some p)) := by
  unfold check_doubled_flags at h
  split at h
  · cases h
  · split at h
    · cases h
    · obtain ⟨p, hp⟩ := doubledGo_shape _ _ _ _ _ _ h
      exact ⟨String.mk p, by rw [hp]; rfl⟩

theorem check_backslash_paths_log {cmd : Chars} {f : Finding}
    (h : check_backslash_paths cmd = some f) :
    ∃ p, f.log = some (mkSuggest "backslash_path" cmd (some p)) := by
  unfold check_backslash_paths at h
  split at h
  · cases h
  · exact ⟨_, by rw [← Option.some.inj h]⟩

theorem check_unc_paths_log {cmd : Chars} {f : Finding}
    (h : check_unc_paths cmd = some f) :
    ∃ p, f.log = some (mkSuggest "unc_path" cmd (some p)) := by
  unfold check_unc_paths at h
  split at h
  · exact ⟨_, by rw [← Option.some.inj h]⟩
  · cases h

theorem check_wsl_paths_log {w : Bool} {cmd : Chars} {f : Finding}
    (h : check_wsl_paths w cmd = some f) :
    ∃ p, f.log = some (mkSuggest "wsl_path" cmd (some p)) := by
  unfold check_wsl_paths at h
  split at h
  · cases h
  · split at h
    · cases h
    · exact ⟨_, by rw [← Option.some.inj h]⟩

theorem check_dir_in_pwsh_log {cmd : Chars} {f : Finding}
    (h : check_dir_in_pwsh cmd = some f) :
    f.log = some (mkSuggest "dir_in_pwsh" cmd none) := by
  unfold check_dir_in_pwsh at h
  split at h
  · cases h
  · split at h
    · cases h
    · rw [← Option.some.inj h]

theorem fileArgBranch_log {cmd : Chars} {f : Finding}
    (h : fileArgBranch cmd = some f) :
    f.log = some (mkSuggest "reserved_name_file" cmd none) := by
  simp only [fileArgBranch] at h
  split at h
  · cases h
  · split at h
    · rw [← Option.some.inj h]
    · cases h

theorem check_reserved_names_log {cmd : Chars} {f : Finding}
    (h : check_reserved_names cmd = some f) :
    f.log = some (mkSuggest "reserved_name_redirect" cmd none) ∨
    f.log = some (mkSuggest "reserved_name_file" cmd none) := by
  unfold check_reserved_names at h
  split at h
  · split at h
    · exact Or.inl (by rw [← Option.some.inj h])
    · exact Or.inr (fileArgBranch_log h)
  · exact Or.inr (fileArgBranch_log h)

theorem check_cmd_workaround_log {cmd : Chars} {f : Finding}
    (h : check_cmd_workaround cmd = some f) : f.log = none := by
  unfold check_cmd_workaround at h
  split at h
  · rw [← Option.some.inj h]
  · cases h

theorem check_powershell_log {cmd : Chars} {f : Finding}
    (h : check_powershell_file_for_oneliner cmd = some f) : f.log = none := by
  unfold check_powershell_file_for_oneliner at h
  split at h
  · rw [← Option.some.inj h]
  · cases h

theorem check_wsl_invocation_log {w : Bool} {cmd : Chars} {f : Finding}
    (h : check_wsl_invocation w cmd = some f) : f.log = none := by
  simp only [check_wsl_invocation] at h
  split at h
  · cases h
  · split at h
    · cases h
    · split at h
      · rw [← Option.some.inj h]
      · rw [← Option.some.inj h]

theorem check_git_commit_attribution_log {cmd : Chars} {f : Finding}
    (h : check_git_commit_attribution cmd = some f) : f.log = none := by
  unfold check_git_commit_attribution at h
  split at h
  · rw [← Option.some.inj h]
  · cases h

theorem check_git_commit_generated_log {cmd : Chars} {f : Finding}
    (h : check_git_commit_generated cmd = some f) : f.log = none := by
  unfold check_git_commit_generated at h
  split at h
  · rw [← Option.some.inj h]
  · cases h

theorem check_git_commit_emoji_log {cmd : Chars} {f : Finding}
    (h : check_git_commit_emoji cmd = some f) : f.log = none := by
  unfold check_git_commit_emoji at h
  split at h
  · rw [← Option.some.inj h]
  · cases h

/-- Every audit entry a tier-2 finding carries is a "suggest" entry. -/
theorem tier2First_log_suggest {cfg : Config} {env : Env} {cmd : Chars}
    {f : Finding} {e : LogEntry}
    (h : tier2First cfg env cmd = some f) (hl : f.log = some e) :
    e.etype = "suggest" := by
  have hmem := firstSome_mem _ _ h
  simp only [tier2Results, List.mem_cons, List.not_mem_nil, or_false] at hmem
  have suggestOf : ∀ (ft : String) (p : Option String),
      f.log = some (mkSuggest ft cmd p) → e.etype = "suggest" := by
    intro ft p hfl
    rw [hfl] at hl
    rw [← Option.some.inj hl]
    rfl
  rcases hmem with h1 | h2 | h3 | h4 | h5 | h6 | h7 | h8 | h9 | h10 | h11 | h12
  · split at h1
    · have hn := check_git_commit_attribution_log h1.symm
      rw [hn] at hl; cases hl
    · cases h1
  · split at h2
    · have hn := check_git_commit_generated_log h2.symm
      rw [hn] at hl; cases hl
    · cases h2
  · split at h3
    · have hn := check_git_commit_emoji_log h3.symm
      rw [hn] at hl; cases hl
    · cases h3
  · split at h4
    · have hn := check_cmd_workaround_log h4.symm
      rw [hn] at hl; cases hl
    · cases h4
  · split at h5
    · have hn := check_powershell_log h5.symm
      rw [hn] at hl; cases hl
    · cases h5
  · split at h6
    · have hn := check_wsl_invocation_log h6.symm
      rw [hn] at hl; cases hl
    · cases h6
  · split at h7
    · obtain ⟨p, hp⟩ := check_wsl_paths_log h7.symm
      exact suggestOf _ _ hp
    · cases h7
  · split at h8
    · exact suggestOf _ _ (check_dir_in_pwsh_log h8.symm)
    · cases h8
  · split at h9
    · rcases check_reserved_names_log h9.symm with hp | hp
      · exact suggestOf _ _ hp
      · exact suggestOf _ _ hp
    · cases h9
  · split at h10
    · obtain ⟨p, hp⟩ := check_doubled_flags_log h10.symm
      exact suggestOf _ _ hp
    · cases h10
  · split at h11
    · obtain ⟨p, hp⟩ := check_backslash_paths_log h11.symm
      exact suggestOf _ _ hp
    · cases h11
  · split at h12
    · obtain ⟨p, hp⟩ := check_unc_paths_log h12.symm
      exact suggestOf _ _ hp
    · cases h12

theorem firstRange_ne_dingbats (cp : Nat) :
    firstRange cp BLOCKED_RANGES ≠ some "dingbats" := by
  intro h
  simp only [BLOCKED_RANGES, firstRange] at h
  split_ifs at h with h1 h2 h3 h4 h5 h6
  · exact absurd (Option.some.inj h) (by decide)
  · exact absurd (Option.some.inj h) (by decide)
  · exact absurd (Option.some.inj h) (by decide)
  · exact absurd (Option.some.inj h) (by decide)
  · exact absurd (Option.some.inj h) (by decide)
  · omega

-- ---------------------------------------------------------------------------
-- Claim theorems
-- ---------------------------------------------------------------------------

/-- C4 counterexample: the claim says the built-in per-check default wins over
the caller-supplied fallback. For nul_redirect the built-in default is true,
yet with no config override and caller fallback false the resolver returns
false: the caller fallback won. -/
theorem spec_c4_counterexample :
    fixbash_is_enabled [] "nul_redirect" (some false) = false ∧
    lookupCfg _DEFAULTS "nul_redirect" = some true := ⟨rfl, rfl⟩

/-- C4 amended: the precedence chain is explicit config-file override, then
the caller-supplied fallback default, then the built-in per-check default,
then the global default true; the content scanner resolves override, then
caller fallback, then false for every unknown key. -/
theorem spec_c4_amended (config : Config) (check_id : String) (dflt : Option Bool) :
    fixbash_is_enabled config check_id dflt = fixbash_precedence_amended config check_id dflt ∧
    content_is_enabled config check_id dflt = content_precedence_amended config check_id dflt := by
  constructor
  · cases hc : lookupCfg config check_id <;> cases hd : dflt <;>
      cases hb : lookupCfg _DEFAULTS check_id <;>
      simp [fixbash_is_enabled, fixbash_precedence_amended, pickOpt, hc, hd, hb]
  · cases hc : lookupCfg config check_id <;> cases hd : dflt <;>
      simp [content_is_enabled, content_precedence_amended, pickOpt, hc, hd]

/-- C5 counterexample: on dir /b /s C:\temp with default configuration the
invocation does not exit 0 with a rewrite; the backslash-path validator
rejects it first with exit status 2. -/
theorem spec_c5_counterexample :
    (runMain [] envNative fsOk [] (toChars "dir /b /s C:\\temp")).outcome =
      .blocked "Windows backslash paths don\x27t work reliably in Git Bash.\nOriginal:  dir /b /s C:\\temp\nSuggested: dir /b /s C:/temp" ∧
    (runMain [] envNative fsOk [] (toChars "dir /b /s C:\\temp")).outcome.exitCode = 2 := ⟨rfl, rfl⟩

/-- C5 amended: with default configuration the command is rejected by the
backslash-path validator (exit 2, suggesting dir /b /s C:/temp, one suggest
entry logged); only with backslash_paths disabled does the dir-flag fixer
run, exiting 0 with the rewrite ls -1 -R C:\temp -- the mapped ls flags over
the path still in backslash form. -/
theorem spec_c5_amended :
    runMain [] envNative fsOk [] (toChars "dir /b /s C:\\temp") =
      ⟨.blocked "Windows backslash paths don\x27t work reliably in Git Bash.\nOriginal:  dir /b /s C:\\temp\nSuggested: dir /b /s C:/temp",
       [mkSuggest "backslash_path" (toChars "dir /b /s C:\\temp") (some "dir /b /s C:/temp")]⟩ ∧
    runMain [("backslash_paths", false)] envNative fsOk [] (toChars "dir /b /s C:\\temp") =
      ⟨.allow (some ⟨"ls -1 -R C:\\temp", "Hook auto-fixed: converted Windows dir /flags to ls equivalent"⟩),
       [mkAutofix (toChars "dir /b /s C:\\temp") (toChars "ls -1 -R C:\\temp")
          ["converted Windows dir /flags to ls equivalent"]]⟩ := ⟨rfl, rfl⟩

/-- C6 counterexample: the fixer pipeline is not idempotent. The pwsh-quoting
fixer rewrites only the first eligible -Command block, so on a command with
two such blocks the second application changes the result again. -/
theorem spec_c6_counterexample :
    fixOnce (toChars "pwsh -c \"a$b\"; pwsh -c \"c$d\"") =
      some (toChars "pwsh -c \x27a$b\x27; pwsh -c \"c$d\"") ∧
    fixOnce (toChars "pwsh -c \x27a$b\x27; pwsh -c \"c$d\"") =
      some (toChars "pwsh -c \x27a$b\x27; pwsh -c \x27c$d\x27") ∧
    toChars "pwsh -c \x27a$b\x27; pwsh -c \"c$d\"" ≠
      toChars "pwsh -c \x27a$b\x27; pwsh -c \x27c$d\x27" :=
  ⟨rfl, rfl, by decide⟩

/-- C6 amended: one pipeline application rewrites only the first eligible
pwsh -Command double-quoted block, so a command with two eligible blocks
changes again on the second application and is stable from then on. -/
theorem spec_c6_amended :
    fixOnce (toChars "pwsh -c \"a$b\"; pwsh -c \"c$d\"") =
      some (toChars "pwsh -c \x27a$b\x27; pwsh -c \"c$d\"") ∧
    fixOnce (toChars "pwsh -c \x27a$b\x27; pwsh -c \"c$d\"") =
      some (toChars "pwsh -c \x27a$b\x27; pwsh -c \x27c$d\x27") ∧
    fixOnce (toChars "pwsh -c \x27a$b\x27; pwsh -c \x27c$d\x27") =
      some (toChars "pwsh -c \x27a$b\x27; pwsh -c \x27c$d\x27") :=
  ⟨rfl, rfl, rfl⟩

/-- C9: the content scanner never labels a character "dingbats": the dingbats
range 0x2700-0x27BF is contained in the earlier misc-symbols row 0x2600-0x27BF
of the table, which matches first. -/
theorem spec_c9 : ∀ (t : Chars) (c : Char) (cp : Nat) (cat : String),
    find_blocked_char t = some (c, cp, cat) → cat ≠ "dingbats" := by
  intro t
  induction t with
  | nil => intro c cp cat h; cases h
  | cons x r ih =>
    intro c cp cat h
    unfold find_blocked_char at h
    split at h
    · rename_i cat' heq
      have hcat : cat' = cat := congrArg (fun z => z.2.2) (Option.some.inj h)
      intro hd
      exact firstRange_ne_dingbats x.toNat (by rw [heq, hcat, hd])
    · exact ih c cp cat h

/-- C9 witness: on a text holding U+2705, the scanner reports the category
misc symbols/dingbats, which is not "dingbats". -/
theorem spec_c9_witness :
    find_blocked_char [Char.ofNat 0x2705] =
      some (Char.ofNat 0x2705, 0x2705, "misc symbols/dingbats") ∧
    ("misc symbols/dingbats" : String) ≠ "dingbats" :=
  ⟨rfl, spec_c9 [Char.ofNat 0x2705] (Char.ofNat 0x2705) 0x2705 "misc symbols/dingbats" rfl⟩

/-- C2 counterexample: check_cmd_workaround is enabled by default and matches
cmd /c echo hi; the invocation terminates with the rejection message, yet no
suggest entry (no entry at all) is appended to the audit log. -/
theorem spec_c2_counterexample :
    check_cmd_workaround (toChars "cmd /c echo hi") = some ⟨msg_cmd_workaround, none⟩ ∧
    fixbash_is_enabled [] "cmd_workaround" none = true ∧
    runMain [] envNative fsOk [] (toChars "cmd /c echo hi") =
      ⟨.blocked msg_cmd_workaround, []⟩ := ⟨rfl, rfl, rfl⟩

/-- C2 amended: only the wsl-path, dir-in-pwsh, reserved-name, doubled-flag,
backslash-path and UNC-path validators append a suggest audit entry
(recording the original and, for those that have one, the proposed command)
before the rejection; the git-commit checks, the cmd-workaround check, the
legacy-powershell check and the wsl-invocation check block without writing
any audit entry. When the blocking validator has an entry, the orchestrator
appends it to the log before terminating with the rejection message. -/
theorem spec_c2_amended (cmd : Chars) :
    (∀ f, check_doubled_flags cmd = some f →
       ∃ p, f.log = some (mkSuggest "doubled_flag" cmd (some p))) ∧
    (∀ f, check_backslash_paths cmd = some f →
       ∃ p, f.log = some (mkSuggest "backslash_path" cmd (some p))) ∧
    (∀ f, check_unc_paths cmd = some f →
       ∃ p, f.log = some (mkSuggest "unc_path" cmd (some p))) ∧
    (∀ w f, check_wsl_paths w cmd = some f →
       ∃ p, f.log = some (mkSuggest "wsl_path" cmd (some p))) ∧
    (∀ f, check_dir_in_pwsh cmd = some f →
       f.log = some (mkSuggest "dir_in_pwsh" cmd none)) ∧
    (∀ f, check_reserved_names cmd = some f →
       f.log = some (mkSuggest "reserved_name_redirect" cmd none) ∨
       f.log = some (mkSuggest "reserved_name_file" cmd none)) ∧
    (∀ f, check_cmd_workaround cmd = some f → f.log = none) ∧
    (∀ f, check_powershell_file_for_oneliner cmd = some f → f.log = none) ∧
    (∀ w f, check_wsl_invocation w cmd = some f → f.log = none) ∧
    (∀ f, check_git_commit_attribution cmd = some f → f.log = none) ∧
    (∀ f, check_git_commit_generated cmd = some f → f.log = none) ∧
    (∀ f, check_git_commit_emoji cmd = some f → f.log = none) ∧
    (∀ cfg env fs log0 f e, tier2First cfg env cmd = some f → f.log = some e →
       fs.writable = true →
       ∃ file, logWrite fs log0 e = some file ∧
         runMain cfg env fs log0 cmd = ⟨.blocked f.msg, file⟩) := by
  refine ⟨fun f h => check_doubled_flags_log h,
          fun f h => check_backslash_paths_log h,
          fun f h => check_unc_paths_log h,
          fun w f h => check_wsl_paths_log h,
          fun f h => check_dir_in_pwsh_log h,
          fun f h => check_reserved_names_log h,
          fun f h => check_cmd_workaround_log h,
          fun f h => check_powershell_log h,
          fun w f h => check_wsl_invocation_log h,
          fun f h => check_git_commit_attribution_log h,
          fun f h => check_git_commit_generated_log h,
          fun f h => check_git_commit_emoji_log h,
          ?_⟩
  intro cfg env fs log0 f e htf hl hw
  have hrb := runMain_blocked cfg env fs log0 cmd f htf
  rw [hl] at hrb
  dsimp only at hrb
  cases hlw : logWrite fs log0 e with
  | none =>
    simp only [logWrite, hw, if_true] at hlw
    split at hlw <;> cases hlw
  | some file =>
    rw [hlw] at hrb
    exact ⟨file, rfl, hrb⟩

/-- C2 witness: the dir-in-pwsh validator matches a concrete command and its
finding carries exactly the suggest entry, while the cmd-workaround validator
matches another concrete command with no audit entry at all. -/
theorem spec_c2_amended_witness :
    (check_dir_in_pwsh (toChars "pwsh -c dir /b")).isSome = true ∧
    (∀ f, check_dir_in_pwsh (toChars "pwsh -c dir /b") = some f →
        f.log = some (mkSuggest "dir_in_pwsh" (toChars "pwsh -c dir /b") none)) ∧
    (check_cmd_workaround (toChars "cmd /c x")).isSome = true ∧
    (∀ f, check_cmd_workaround (toChars "cmd /c x") = some f → f.log = none) :=
  ⟨rfl, (spec_c2_amended (toChars "pwsh -c dir /b")).2.2.2.2.1,
   rfl, (spec_c2_amended (toChars "cmd /c x")).2.2.2.2.2.2.1⟩

/-- C3 counterexample: when the audit log cannot be written, a command the
backslash-path validator matches does not produce the same deny outcome: the
OSError propagates out of log_fixup (there is no handler in _log_entry) and
the process dies with a traceback, exit status 1 instead of 2. -/
theorem spec_c3_counterexample :
    (runMain [] envNative fsNoWrite [] (toChars "echo C:\\Users x")).outcome = .crashed ∧
    (runMain [] envNative fsNoWrite [] (toChars "echo C:\\Users x")).outcome.exitCode = 1 ∧
    (runMain [] envNative fsOk [] (toChars "echo C:\\Users x")).outcome.exitCode = 2 :=
  ⟨rfl, rfl, rfl⟩

theorem logWrite_true (r : Bool) (log0 : List LogEntry) (e : LogEntry) :
    logWrite ⟨true, r⟩ log0 e =
      some (if r && decide (MAX_LOG_LINES < (log0 ++ [e]).length)
            then lastN TRIM_TO_LINES (log0 ++ [e]) else log0 ++ [e]) := by
  unfold logWrite
  dsimp only
  split
  · split <;> rfl
  · exact absurd rfl (by assumption)

/-- C3 amended: the only swallowed audit-log failure is the read inside the
trim step; it never changes the allow/deny/rewrite outcome (only the
resulting log file). Failures to create the log directory or to open or
write the log file propagate and abort the invocation with an uncaught
exception whenever an audit write is attempted. -/
theorem spec_c3_amended (cfg : Config) (env : Env) (log0 : List LogEntry)
    (cmd : Chars) (w r1 r2 : Bool) :
    (runMain cfg env ⟨w, r1⟩ log0 cmd).outcome =
    (runMain cfg env ⟨w, r2⟩ log0 cmd).outcome := by
  by_cases hc : cmd = []
  · subst hc; rfl
  · unfold runMain
    rw [if_neg hc, if_neg hc]
    cases htf : tier2First cfg env cmd with
    | some f =>
      dsimp only
      cases hl : f.log with
      | none => rfl
      | some e =>
        dsimp only
        cases w with
        | false => rfl
        | true => rw [logWrite_true, logWrite_true]
    | none =>
      dsimp only
      cases hfp : fixPipeline cfg cmd with
      | error m => rfl
      | ok pr =>
        obtain ⟨fixed, fixes⟩ := pr
        dsimp only
        by_cases hfx : fixes = []
        · rw [if_pos hfx, if_pos hfx]
        · rw [if_neg hfx, if_neg hfx]
          cases w with
          | false => rfl
          | true => rw [logWrite_true, logWrite_true]

/-- C8: when the command starts with the dir verb and any parsed flag letter
is outside _DIR_FLAG_MAP, the fixer returns its input unchanged; whenever the
fixer does change the command, every parsed flag was in the mapping. -/
theorem spec_c8 (cmd : Chars) :
    (dirUnknownFlag cmd = true → fix_dir_windows_flags cmd = cmd) ∧
    (fix_dir_windows_flags cmd ≠ cmd →
      ∀ c ∈ dirParsedFlags cmd, (dirFlagMap c).isSome = true) := by
  obtain ⟨flags, rest, hq⟩ : ∃ fl r,
      parseDirFlags ((stripCh ((stripCh cmd).drop 3)).length + 1)
        (stripCh ((stripCh cmd).drop 3)) = (fl, r) := ⟨_, _, rfl⟩
  have hdp : dirParsedFlags cmd = flags := by
    simp only [dirParsedFlags]
    rw [hq]
  constructor
  · intro h
    simp only [dirUnknownFlag, Bool.and_eq_true] at h
    obtain ⟨⟨hm, hne⟩, hany⟩ := h
    rw [hdp] at hne hany
    simp only [fix_dir_windows_flags]
    rw [hq]
    dsimp only
    rw [hm]
    simp only [Bool.not_true, Bool.false_eq_true, if_false]
    have hfe : ¬flags = [] := by
      cases flags with
      | nil => simp at hne
      | cons a t => simp
    rw [if_neg hfe, if_pos hany]
  · intro hne c hc
    by_contra hns
    have hnone : (dirFlagMap c).isNone = true := by
      cases hdm : dirFlagMap c with
      | none => rfl
      | some m => rw [hdm] at hns; simp at hns
    have hany : flags.any (fun c => (dirFlagMap c).isNone) = true := by
      rw [hdp] at hc
      exact List.any_eq_true.mpr ⟨c, hc, hnone⟩
    apply hne
    simp only [fix_dir_windows_flags]
    rw [hq]
    dsimp only
    by_cases hm : matchDirVerb (stripCh cmd) = true
    · rw [hm]
      simp only [Bool.not_true, Bool.false_eq_true, if_false]
      by_cases hfe : flags = []
      · rw [if_pos hfe]
      · rw [if_neg hfe, if_pos hany]
    · have hmf : matchDirVerb (stripCh cmd) = false := by
        revert hm; cases matchDirVerb (stripCh cmd) <;> simp
      rw [hmf]
      rfl

/-- C8 witness: dir /z foo parses the unknown flag z and is left unchanged. -/
theorem spec_c8_witness :
    dirUnknownFlag (toChars "dir /z foo") = true ∧
    fix_dir_windows_flags (toChars "dir /z foo") = toChars "dir /z foo" :=
  ⟨rfl, (spec_c8 (toChars "dir /z foo")).1 rfl⟩

theorem drop_succ_of_cons {cmd : Chars} {pos : Nat} {c : Char} {r : Chars}
    (hs : cmd.drop pos = c :: r) : cmd.drop (pos + 1) = r := by
  rw [← List.drop_drop, hs]
  rfl

theorem quoteCount_succ {cmd : Chars} {pos : Nat} {c : Char} {r : Chars}
    (hs : cmd.drop pos = c :: r) :
    quoteCount cmd (pos + 1) = quoteCount cmd pos + (if c = '\x27' then 1 else 0) := by
  unfold quoteCount
  rw [List.take_add, hs, List.filter_append, List.length_append]
  congr 1
  by_cases hc : c = '\x27'
  · simp [hc, List.filter]
  · simp [List.filter, hc]

theorem quoteCount_succ_not {cmd : Chars} {pos : Nat} {c : Char} {r : Chars}
    (hs : cmd.drop pos = c :: r) (hc : c ≠ '\x27') :
    quoteCount cmd (pos + 1) = quoteCount cmd pos := by
  rw [quoteCount_succ hs, if_neg hc]
  omega

theorem isAlpha_ne_quote {c : Char} (h : c.isAlpha = true) : c ≠ '\x27' := by
  intro hc
  rw [hc] at h
  cases h

/-- Invariant of the backslash-path scan: a returned offset is a pattern
match at even single-quote parity. -/
theorem bpGo_even : ∀ (fuel pos q : Nat) (s cmd : Chars) (j : Nat),
    cmd.drop pos = s → quoteCount cmd pos = q →
    bpGo fuel pos q s = some j →
    drivePathAt cmd j = true ∧ quoteCount cmd j % 2 = 0 := by
  intro fuel
  induction fuel with
  | zero => intro pos q s cmd j _ _ h; cases h
  | succ n ih =>
    intro pos q s cmd j hs hq h
    cases s with
    | nil => cases h
    | cons c r =>
      unfold bpGo at h
      split at h
      · rename_i hdp
        split at h
        · rename_i hodd
          cases r with
          | nil => cases hdp
          | cons x1 r1 =>
            cases r1 with
            | nil => cases hdp
            | cons x2 r2 =>
              cases r2 with
              | nil => cases hdp
              | cons x3 r3 =>
                simp only [drivePathHere, Bool.and_eq_true] at hdp
                obtain ⟨⟨⟨ha, hb⟩, hc2⟩, hd⟩ := hdp
                have hb2 : x1 = ':' := of_decide_eq_true hb
                have hc3 : x2 = '\\' := of_decide_eq_true hc2
                have h1 : cmd.drop (pos + 1) = x1 :: x2 :: x3 :: r3 := drop_succ_of_cons hs
                have h2 : cmd.drop (pos + 1 + 1) = x2 :: x3 :: r3 := drop_succ_of_cons h1
                have h3 : cmd.drop (pos + 1 + 1 + 1) = x3 :: r3 := drop_succ_of_cons h2
                have h4 : cmd.drop (pos + 1 + 1 + 1 + 1) = r3 := drop_succ_of_cons h3
                have q1 : quoteCount cmd (pos + 1) = q := by
                  rw [quoteCount_succ_not hs (isAlpha_ne_quote ha), hq]
                have q2 : quoteCount cmd (pos + 1 + 1) = q := by
                  rw [quoteCount_succ_not h1 (by rw [hb2]; decide), q1]
                have q3 : quoteCount cmd (pos + 1 + 1 + 1) = q := by
                  rw [quoteCount_succ_not h2 (by rw [hc3]; decide), q2]
                have q4 : quoteCount cmd (pos + 1 + 1 + 1 + 1) = q := by
                  rw [quoteCount_succ_not h3 (isAlpha_ne_quote hd), q3]
                have hp4 : pos + 4 = pos + 1 + 1 + 1 + 1 := by omega
                refine ih (pos + 4) q _ cmd j ?_ ?_ h
                · rw [hp4, h4]
                  rfl
                · rw [hp4, q4]
        · rename_i heven
          have hj : pos = j := Option.some.inj h
          subst hj
          constructor
          · unfold drivePathAt
            rw [hs]
            assumption
          · omega
      · refine ih (pos + 1) _ r cmd j (drop_succ_of_cons hs) ?_ h
        rw [quoteCount_succ hs, hq]
        by_cases hc : c = '\x27'
        · rw [if_pos hc, if_pos hc]
        · rw [if_neg hc, if_neg hc]
          omega

/-- C7: an occurrence of a drive-letter backslash path at odd single-quote
parity is never the one the backslash-path validator flags; any flagged
occurrence has even parity, and when every occurrence has odd parity the
validator produces no rejection at all. -/
theorem spec_c7 (cmd : Chars) (i : Nat)
    (hm : drivePathAt cmd i = true) (hq : quoteCount cmd i % 2 = 1) :
    (∀ j, bpFind cmd = some j →
        j ≠ i ∧ drivePathAt cmd j = true ∧ quoteCount cmd j % 2 = 0) ∧
    ((∀ k, drivePathAt cmd k = true → quoteCount cmd k % 2 = 1) →
      check_backslash_paths cmd = none) := by
  constructor
  · intro j hj
    unfold bpFind at hj
    have h2 := bpGo_even (cmd.length + 1) 0 0 cmd cmd j rfl rfl hj
    refine ⟨?_, h2.1, h2.2⟩
    intro hji
    rw [hji] at h2
    omega
  · intro hall
    cases hbp : bpFind cmd with
    | none => simp [check_backslash_paths, hbp]
    | some j =>
      exfalso
      unfold bpFind at hbp
      have h2 := bpGo_even (cmd.length + 1) 0 0 cmd cmd j rfl rfl hbp
      have h3 := hall j h2.1
      omega

/-- C7 witness: in echo 'C:\x' the path occurrence at offset 6 sits behind
one single quote and the validator does not flag it. -/
theorem spec_c7_witness :
    drivePathAt (toChars "echo \x27C:\\x\x27") 6 = true ∧
    quoteCount (toChars "echo \x27C:\\x\x27") 6 % 2 = 1 ∧
    ((∀ j, bpFind (toChars "echo \x27C:\\x\x27") = some j →
        j ≠ 6 ∧ drivePathAt (toChars "echo \x27C:\\x\x27") j = true ∧
          quoteCount (toChars "echo \x27C:\\x\x27") j % 2 = 0) ∧
     ((∀ k, drivePathAt (toChars "echo \x27C:\\x\x27") k = true →
         quoteCount (toChars "echo \x27C:\\x\x27") k % 2 = 1) →
       check_backslash_paths (toChars "echo \x27C:\\x\x27") = none)) :=
  ⟨by decide, by decide, spec_c7 (toChars "echo \x27C:\\x\x27") 6 (by decide) (by decide)⟩

/-- A successful reserved-redirect search is an anchor-free occurrence whose
line remainder is blank. -/
theorem reservedRedirGo_some : ∀ (fuel : Nat) (rev s : Chars) (name : Chars),
    reservedRedirGo fuel rev s = some name →
    ∃ u v rest, rev.reverse ++ s = u ++ v ∧
      looseReservedAt u.reverse v = some (name, rest) ∧ lineBlank rest = true := by
  intro fuel
  induction fuel with
  | zero => intro rev s name h; cases h
  | succ n ih =>
    intro rev s name h
    cases s with
    | nil => cases h
    | cons c r =>
      unfold reservedRedirGo at h
      split at h
      · rename_i name0 rest0 hla
        split at h
        · rename_i hlb
          refine ⟨rev.reverse, c :: r, rest0, rfl, ?_, hlb⟩
          rw [List.reverse_reverse]
          rw [hla, Option.some.inj h]
        · obtain ⟨u, v, rest, heq, hl2, hb2⟩ := ih (c :: rev) r name h
          refine ⟨u, v, rest, ?_, hl2, hb2⟩
          rw [← heq]
          simp
      · obtain ⟨u, v, rest, heq, hl2, hb2⟩ := ih (c :: rev) r name h
        refine ⟨u, v, rest, ?_, hl2, hb2⟩
        rw [← heq]
        simp

/-- When every anchor-free occurrence at or after the current position has a
non-blank line remainder, the search fails. -/
theorem reservedRedirGo_none : ∀ (fuel : Nat) (rev s : Chars),
    (∀ u v name rest, rev.reverse ++ s = u ++ v →
       looseReservedAt u.reverse v = some (name, rest) → lineBlank rest = false) →
    reservedRedirGo fuel rev s = none := by
  intro fuel
  induction fuel with
  | zero => intro rev s hyp; rfl
  | succ n ih =>
    intro rev s hyp
    cases s with
    | nil => rfl
    | cons c r =>
      have hnext : ∀ u v name rest, (c :: rev).reverse ++ r = u ++ v →
          looseReservedAt u.reverse v = some (name, rest) → lineBlank rest = false := by
        intro u v name rest heq hl
        refine hyp u v name rest ?_ hl
        rw [← heq]
        simp
      unfold reservedRedirGo
      split
      · rename_i name0 rest0 hla
        have hb := hyp rev.reverse (c :: r) name0 rest0 rfl
          (by rw [List.reverse_reverse]; exact hla)
        rw [hb]
        exact ih (c :: rev) r hnext
      · exact ih (c :: rev) r hnext

/-- C10: the redirect branch of the reserved-name validator fires only when
the redirect target (with its optional extension) is the last token on its
line; when every occurrence is followed by further non-whitespace text on
the same line, the branch finds nothing. -/
theorem spec_c10 (cmd : Chars) :
    (∀ name, reservedRedirFind cmd = some name →
       ∃ i rest, looseReservedAtPos cmd i = some (name, rest) ∧ lineBlank rest = true) ∧
    (noEolReservedTarget cmd = true → reservedRedirFind cmd = none) := by
  constructor
  · intro name h
    unfold reservedRedirFind at h
    obtain ⟨u, v, rest, heq, hl, hb⟩ := reservedRedirGo_some _ [] cmd name h
    simp only [List.reverse_nil, List.nil_append] at heq
    refine ⟨u.length, rest, ?_, hb⟩
    unfold looseReservedAtPos
    rw [heq, List.take_left, List.drop_left]
    exact hl
  · intro hall
    unfold reservedRedirFind
    apply reservedRedirGo_none
    intro u v name rest heq hl
    simp only [List.reverse_nil, List.nil_append] at heq
    have hmem : u.length ∈ List.range (cmd.length + 1) := by
      rw [List.mem_range]
      have : u.length ≤ cmd.length := by
        rw [heq, List.length_append]
        omega
      omega
    have h2 := (List.all_eq_true.mp hall) u.length hmem
    simp only [looseReservedAtPos] at h2
    rw [heq, List.take_left, List.drop_left, hl] at h2
    simp only [Bool.not_eq_true'] at h2
    exact h2

/-- C10 witness: echo > con extra has a redirect to con followed by more text
on the line, and the redirect branch does not match. -/
theorem spec_c10_witness :
    noEolReservedTarget (toChars "echo > con extra") = true ∧
    reservedRedirFind (toChars "echo > con extra") = none :=
  ⟨by decide, (spec_c10 (toChars "echo > con extra")).2 (by decide)⟩

/-- C1: when two enabled tier-2 validators match the same command, the run
blocks with the message of the earliest matching validator in the fixed
chain order, every validator before it not matching, and no tier-1 fixer
output is produced: the outcome is the rejection and the audit log gains no
autofix entry. -/
theorem spec_c1 (cfg : Config) (env : Env) (fs : FS) (log0 : List LogEntry) (cmd : Chars)
    (i j : Nat) (hw : fs.writable = true) (hij : i < j)
    (hi : tier2MatchesAt cfg env cmd i = true)
    (hj : tier2MatchesAt cfg env cmd j = true) :
    ∃ k fk, k ≤ i ∧ (tier2Results cfg env cmd)[k]? = some (some fk) ∧
      (∀ m, m < k → (tier2Results cfg env cmd)[m]? = some none) ∧
      (runMain cfg env fs log0 cmd).outcome = .blocked fk.msg ∧
      (∀ e, e ∈ (runMain cfg env fs log0 cmd).logFile → e.etype = "autofix" → e ∈ log0) := by
  obtain ⟨fi, hfi⟩ : ∃ fi, (tier2Results cfg env cmd)[i]? = some (some fi) := by
    unfold tier2MatchesAt at hi
    split at hi
    · rename_i f hsf
      exact ⟨f, hsf⟩
    · cases hi
  obtain ⟨k, fk, hk, hget, hpre, hfs⟩ := firstSome_found _ i fi hfi
  have htf : tier2First cfg env cmd = some fk := hfs
  have hrb := runMain_blocked cfg env fs log0 cmd fk htf
  cases hl : fk.log with
  | none =>
    rw [hl] at hrb
    dsimp only at hrb
    refine ⟨k, fk, hk, hget, hpre, by rw [hrb], ?_⟩
    intro e he _
    rw [hrb] at he
    exact he
  | some e0 =>
    rw [hl] at hrb
    dsimp only at hrb
    cases hlw : logWrite fs log0 e0 with
    | none =>
      exfalso
      simp only [logWrite, hw, if_true] at hlw
      split at hlw <;> cases hlw
    | some file =>
      rw [hlw] at hrb
      have hsub : ∀ x, x ∈ file → x ∈ log0 ++ [e0] := by
        intro x hx
        simp only [logWrite, hw, if_true] at hlw
        split at hlw
        · rw [← Option.some.inj hlw] at hx
          exact List.drop_subset _ _ hx
        · rw [← Option.some.inj hlw] at hx
          exact hx
      refine ⟨k, fk, hk, hget, hpre, by rw [hrb], ?_⟩
      intro e he hety
      rw [hrb] at he
      rcases List.mem_append.mp (hsub e he) with h1 | h2
      · exact h1
      · exfalso
        have he0 : e = e0 := by simpa using h2
        have hs := tier2First_log_suggest htf hl
        rw [← he0] at hs
        rw [hety] at hs
        exact absurd hs (by decide)

/-- C1 witness: cmd /c dir C:\temp matches both the cmd-workaround validator
(index 3) and the backslash-path validator (index 10); the earliest match
wins. -/
theorem spec_c1_witness :
    tier2MatchesAt [] envNative (toChars "cmd /c dir C:\\temp") 3 = true ∧
    tier2MatchesAt [] envNative (toChars "cmd /c dir C:\\temp") 10 = true ∧
    (∃ k fk, k ≤ 3 ∧
      (tier2Results [] envNative (toChars "cmd /c dir C:\\temp"))[k]? = some (some fk) ∧
      (∀ m, m < k →
        (tier2Results [] envNative (toChars "cmd /c dir C:\\temp"))[m]? = some none) ∧
      (runMain [] envNative fsOk [] (toChars "cmd /c dir C:\\temp")).outcome = .blocked fk.msg ∧
      (∀ e, e ∈ (runMain [] envNative fsOk [] (toChars "cmd /c dir C:\\temp")).logFile →
        e.etype = "autofix" → e ∈ ([] : List LogEntry))) :=
  ⟨by decide, by decide,
   spec_c1 [] envNative fsOk [] (toChars "cmd /c dir C:\\temp") 3 10 rfl (by decide)
     (by decide) (by decide)⟩
